import Mathlib

/-!
Shallow embedding of the `chachahraje/kamera` repository
(`src/camera_controller.py`, `src/ai_camera_control.py`).

Modelling conventions:
* Python `int` values are `Int`; Python floats are modelled by exact
  rationals `ℚ` (the claims never depend on rounding error of IEEE
  doubles; where a float literal such as `0.1` appears, the doc comment
  of the definition records the exact modelling choice).
* Python strings and the bytes on the serial wire are `List Char`
  (`encode("utf-8")` is injective and structure-preserving on the
  command alphabet, so byte-level claims are stated on characters).
* Fallible capture is `Option ℚ`; a raising serial write is an
  `Except Unit` result.
-/

namespace Kamera

/-- Truncation toward zero, the semantics of Python's `int(x)` applied to a
float or a float division result: `int(1.5) = 1`, `int(-1.5) = -1`. -/
def pyInt (q : ℚ) : Int := if 0 ≤ q then ⌊q⌋ else ⌈q⌉

/-- Python's built-in `round` on a float: round-half-to-even (banker's
rounding).  Used only to state the spec's claimed `round(dx * 0.1)`
control law, which is compared against the source's `int(dx * 0.1)`. -/
def pyRound (q : ℚ) : Int :=
  if q - ⌊q⌋ < 1/2 then ⌊q⌋
  else if (1 : ℚ)/2 < q - ⌊q⌋ then ⌊q⌋ + 1
  else if ⌊q⌋ % 2 = 0 then ⌊q⌋ else ⌊q⌋ + 1

/-- Semantic actuator commands (the spec's `ControlCommand`), as issued by
`AIFollower.run` and `CameraController.autofocus_loop`: `pan(v)`, `tilt(v)`,
`set_zoom(v)`, `set_focus(v)` in `src/camera_controller.py`. -/
inductive Cmd where
  | pan (v : Int)
  | tilt (v : Int)
  | setZoom (v : Int)
  | setFocus (v : Int)
deriving DecidableEq, Repr

/-- Frame geometry captured once at the start of `AIFollower.run`:
`frame_width = int(cap.get(CAP_PROP_FRAME_WIDTH))` and likewise the height
(`src/ai_camera_control.py` lines 27-28). -/
structure Geometry where
  width : Int
  height : Int
deriving DecidableEq, Repr

/-- A detection bounding box `x1, y1, x2, y2 = person.xyxy[0].cpu().tolist()`
(`src/ai_camera_control.py` line 45): float pixel coordinates, modelled as
exact rationals. -/
structure Box where
  x1 : ℚ
  y1 : ℚ
  x2 : ℚ
  y2 : ℚ
deriving DecidableEq

/-- Source line 46: `obj_center_x = int((x1 + x2) / 2)`. -/
def obj_center_x (b : Box) : Int := pyInt ((b.x1 + b.x2) / 2)

/-- Source line 47: `obj_center_y = int((y1 + y2) / 2)`. -/
def obj_center_y (b : Box) : Int := pyInt ((b.y1 + b.y2) / 2)

/-- Source line 29: `center_x = frame_width // 2` (Python floor division). -/
def center_x (g : Geometry) : Int := Int.fdiv g.width 2

/-- Source line 30: `center_y = frame_height // 2`. -/
def center_y (g : Geometry) : Int := Int.fdiv g.height 2

/-- Source line 48: `dx = obj_center_x - center_x`. -/
def dxOf (g : Geometry) (b : Box) : Int := obj_center_x b - center_x g

/-- Source line 49: `dy = obj_center_y - center_y`. -/
def dyOf (g : Geometry) (b : Box) : Int := obj_center_y b - center_y g

/-- Source line 51: `pan_val = int(dx * 0.1)` with `dx` an `int`.  The IEEE
double product `dx * 0.1` truncates to the same integer as the exact
rational `dx / 10` for every `|dx| < 2^49` (the double nearest `0.1`
exceeds `1/10` by `2^-56/10`, so the product differs from `dx/10` by less
than one ulp and never crosses an integer for such `dx`), so the line is
modelled as exact truncation of `dx / 10`. -/
def pan_val (g : Geometry) (b : Box) : Int := pyInt ((dxOf g b : ℚ) / 10)

/-- Source line 52: `tilt_val = int(dy * 0.1)`, modelled like `pan_val`. -/
def tilt_val (g : Geometry) (b : Box) : Int := pyInt ((dyOf g b : ℚ) / 10)

/-- Source line 57: `bbox_width = x2 - x1`. -/
def bbox_width (b : Box) : ℚ := b.x2 - b.x1

/-- Source line 58 as a function of the frame width and the bounding-box
width: `zoom_value = int(10000 + (frame_width - bbox_width) * 5)`. -/
def zoom_of_width (W : Int) (w : ℚ) : Int := pyInt (10000 + ((W : ℚ) - w) * 5)

/-- Source line 58: `zoom_value = int(10000 + (frame_width - bbox_width) * 5)`. -/
def zoom_value (g : Geometry) (b : Box) : Int := zoom_of_width g.width (bbox_width b)

/-- The actuator commands issued by one iteration of `AIFollower.run` in
which a person detection was selected (`src/ai_camera_control.py` lines
45-59): `pan(pan_val)` if `abs(pan_val) > 1`, then `tilt(tilt_val)` if
`abs(tilt_val) > 1`, then unconditionally `set_zoom(zoom_value)`. -/
def frameStep (g : Geometry) (b : Box) : List Cmd :=
  (if 1 < |pan_val g b| then [Cmd.pan (pan_val g b)] else []) ++
    (if 1 < |tilt_val g b| then [Cmd.tilt (tilt_val g b)] else []) ++
    [Cmd.setZoom (zoom_value g b)]

/-- Number of elements of Python's `range(start, stop, step)` for a positive
`step`: `max 0 (ceil ((stop - start) / step))`, written with floor
division. -/
def pyRangeLen (start stop step : Int) : Nat :=
  ((stop - start + step - 1).fdiv step).toNat

/-- Python's `range(start, stop, step)` for a positive `step`, as the list
`[start, start + step, ...)` of values below `stop`. -/
def pyRange (start stop step : Int) : List Int :=
  (List.range (pyRangeLen start stop step)).map (fun (k : ℕ) => start + (k : Int) * step)

/-- The focus values visited by the sweep `for focus in
range(min_focus, max_focus + 1, step)` in `CameraController.autofocus_loop`
(`src/camera_controller.py` line 116). -/
def sweepGrid (min_focus max_focus step : Int) : List Int :=
  pyRange min_focus (max_focus + 1) step

/-- State of the serial command channel (`CameraController.serial`):
`Open` when `serial.Serial(port, baudrate, timeout)` succeeded in
`__init__` and the handle reports open, `Closed` when the constructor
caught an exception and set `self.serial = None` (or the handle reports
closed).  No code path assigns `self.serial` after `__init__`. -/
inductive ChannelState where
  | Open
  | Closed
deriving DecidableEq, Repr

/-- Construction (`CameraController.__init__`, `src/camera_controller.py`
lines 12-20): the try block either installs an open handle or, on any
exception, leaves `self.serial = None`. -/
def mkChannel (openOk : Bool) : ChannelState :=
  if openOk then ChannelState.Open else ChannelState.Closed

/-- Characters removed by Python's `str.strip()` with no argument
(ASCII whitespace: space, tab, newline, carriage return, vertical tab,
form feed; the command strings in this repository are ASCII). -/
def isPyWhite (c : Char) : Bool :=
  c = ' ' || c = '\t' || c = '\n' || c = '\r' || c = '\x0b' || c = '\x0c'

/-- Leading-whitespace removal, the left half of `cmd.strip()`. -/
def lstripW (s : List Char) : List Char := s.dropWhile isPyWhite

/-- Trailing-whitespace removal, the right half of `cmd.strip()`. -/
def rstripW (s : List Char) : List Char := (s.reverse.dropWhile isPyWhite).reverse

/-- Python's `cmd.strip()`: remove leading and trailing whitespace. -/
def pyStrip (s : List Char) : List Char := rstripW (lstripW s)

/-- Behaviour of the far end for one `send_command` call: whether
`self.serial.write` raises (pyserial may raise `SerialException`; the
source wraps the write in no try block), and the bytes that
`read_all()` returns after the settle interval. -/
structure Device where
  writeRaises : Bool
  responseBytes : List Char
deriving DecidableEq

/-- Source line 35: `full_cmd = (cmd.strip() + "\r\n").encode("utf-8")` —
the exact bytes handed to `serial.write`, modelled at character level. -/
def full_cmd (cmd : List Char) : List Char := pyStrip cmd ++ ['\r', '\n']

/-- One call of `CameraController.send_command` (`src/camera_controller.py`
lines 30-41).  Result: the channel state after the call (no branch
assigns `self.serial`, so it is the input state), the returned value
(`Except.error` models an uncaught exception escaping to the caller,
`Except.ok none` the early `return None` of the closed branch,
`Except.ok (some r)` the stripped response), and the bytes written to the
device (empty when nothing was written). -/
def send_command (st : ChannelState) (cmd : List Char) (dev : Device) :
    ChannelState × Except Unit (Option (List Char)) × List Char :=
  match st with
  | ChannelState.Closed => (ChannelState.Closed, Except.ok none, [])
  | ChannelState.Open =>
    if dev.writeRaises then (ChannelState.Open, Except.error (), [])
    else (ChannelState.Open, Except.ok (some (pyStrip dev.responseBytes)), full_cmd cmd)

/-- A sequence of `send_command` calls on one controller, threading the
channel state and collecting each call's returned value and wire bytes. -/
def runSends (st : ChannelState) (inputs : List (List Char × Device)) :
    ChannelState × List (Except Unit (Option (List Char)) × List Char) :=
  match inputs with
  | [] => (st, [])
  | (cmd, dev) :: rest =>
    let r := send_command st cmd dev
    let rr := runSends r.1 rest
    (rr.1, (r.2.1, r.2.2) :: rr.2)

/-- The update of the best-seen sample in `autofocus_loop`
(`src/camera_controller.py` lines 124-126): `if value > best_value:
best_value = value; best_focus = focus` — a strictly-greater comparison. -/
def bestStep (b : Int × ℚ) (p : Int × ℚ) : Int × ℚ := if b.2 < p.2 then p else b

/-- One iteration of the sweep body for candidate focus `f`
(`src/camera_controller.py` lines 117-126): `sharp f = none` models a
failed capture (`if not ret: continue`, leaving the best sample
untouched); `sharp f = some v` models a successful capture whose
Laplacian variance is `v`. -/
def afStep (sharp : Int → Option ℚ) (b : Int × ℚ) (f : Int) : Int × ℚ :=
  match sharp f with
  | none => b
  | some v => bestStep b (f, v)

/-- The `(best_focus, best_value)` pair after the sweep of
`autofocus_loop`, starting from `best_focus = min_focus`,
`best_value = -1.0` (`src/camera_controller.py` lines 111-126). -/
def autofocusBestPair (min_focus max_focus step : Int)
    (sharp : Int → Option ℚ) : Int × ℚ :=
  (sweepGrid min_focus max_focus step).foldl (afStep sharp) (min_focus, -1)

/-- The final `best_focus` value committed by `self.set_focus(best_focus)`
at the end of the sweep (`src/camera_controller.py` line 128). -/
def best_focus (min_focus max_focus step : Int) (sharp : Int → Option ℚ) : Int :=
  (autofocusBestPair min_focus max_focus step sharp).1

/-- The actuator commands issued by `autofocus_loop`
(`src/camera_controller.py` lines 98-129): nothing when the video device
failed to open (early return); otherwise one `set_focus(focus)` per swept
candidate followed by the final committing `set_focus(best_focus)`. -/
def autofocus_loop (opened : Bool) (min_focus max_focus step : Int)
    (sharp : Int → Option ℚ) : List Cmd :=
  if opened then
    (sweepGrid min_focus max_focus step).map Cmd.setFocus ++
      [Cmd.setFocus (best_focus min_focus max_focus step sharp)]
  else []

/-- The successful samples of a sweep, in sweep order: the `(focus, value)`
pairs for which capture succeeded. -/
def successes (grid : List Int) (sharp : Int → Option ℚ) : List (Int × ℚ) :=
  grid.filterMap (fun f => (sharp f).map (fun v => (f, v)))

/-- Decidable form of "this sample, if captured, has nonnegative
sharpness"; the sharpness in the source is `lap.var()`, a variance, hence
nonnegative. -/
def nonnegOpt (o : Option ℚ) : Bool :=
  match o with
  | none => true
  | some v => decide (0 ≤ v)

/-- Truncation toward zero is monotone. -/
lemma pyInt_mono {q1 q2 : ℚ} (h : q1 ≤ q2) : pyInt q1 ≤ pyInt q2 := by
  unfold pyInt
  by_cases h1 : 0 ≤ q1
  · rw [if_pos h1, if_pos (le_trans h1 h)]
    exact Int.floor_mono h
  · rw [if_neg h1]
    by_cases h2 : 0 ≤ q2
    · rw [if_pos h2]
      have hc : ⌈q1⌉ ≤ 0 := Int.ceil_le.2 (by exact_mod_cast le_of_lt (not_le.1 h1))
      have hfl : (0 : Int) ≤ ⌊q2⌋ := Int.le_floor.2 (by exact_mod_cast h2)
      linarith
    · rw [if_neg h2]
      exact Int.ceil_mono h

/-! Helper lemmas about whitespace stripping. -/

lemma dropWhile_append_of_all {α : Type} {p : α → Bool} {a s : List α}
    (ha : ∀ c ∈ a, p c = true) : (a ++ s).dropWhile p = s.dropWhile p := by
  induction a with
  | nil => rfl
  | cons c a ih =>
    rw [List.cons_append, List.dropWhile_cons, if_pos (ha c (by simp))]
    exact ih fun c hc => ha c (by simp [hc])

lemma dropWhile_append_of_ne_nil {α : Type} {p : α → Bool} {x y : List α}
    (h : x.dropWhile p ≠ []) : (x ++ y).dropWhile p = x.dropWhile p ++ y := by
  rw [List.dropWhile_append, if_neg (by simpa [List.isEmpty_iff] using h)]

lemma dropWhile_head_false {α : Type} {p : α → Bool} :
    ∀ (l : List α) (c : α) (t : List α), l.dropWhile p = c :: t → p c = false := by
  intro l
  induction l with
  | nil => intro c t h; simp [List.dropWhile] at h
  | cons a l ih =>
    intro c t h
    rw [List.dropWhile_cons] at h
    by_cases hp : p a = true
    · rw [if_pos hp] at h; exact ih c t h
    · rw [if_neg hp] at h
      obtain ⟨rfl, -⟩ := List.cons.injEq .. ▸ h
      simpa using hp

lemma lstripW_append_of_all {a s : List Char} (ha : ∀ c ∈ a, isPyWhite c = true) :
    lstripW (a ++ s) = lstripW s :=
  dropWhile_append_of_all ha

lemma rstripW_append_of_all {b s : List Char} (hb : ∀ c ∈ b, isPyWhite c = true) :
    rstripW (s ++ b) = rstripW s := by
  unfold rstripW
  rw [List.reverse_append, dropWhile_append_of_all fun c hc => hb c (by simpa using hc)]

lemma rstripW_last_not_white {s t : List Char} {c : Char}
    (h : rstripW s = t ++ [c]) : isPyWhite c = false := by
  have h1 : s.reverse.dropWhile isPyWhite = c :: t.reverse := by
    have h2 := congrArg List.reverse h
    simpa [rstripW] using h2
  exact dropWhile_head_false s.reverse c t.reverse h1

lemma pyStrip_surround {a b s : List Char} (ha : ∀ c ∈ a, isPyWhite c = true)
    (hb : ∀ c ∈ b, isPyWhite c = true) : pyStrip (a ++ s ++ b) = pyStrip s := by
  unfold pyStrip
  rw [List.append_assoc, lstripW_append_of_all ha]
  by_cases h : lstripW s = []
  · have hs : ∀ c ∈ s, isPyWhite c = true := List.dropWhile_eq_nil_iff.1 h
    have h2 : lstripW (s ++ b) = lstripW b := lstripW_append_of_all hs
    have h3 : lstripW b = [] := List.dropWhile_eq_nil_iff.2 hb
    rw [h, h2, h3]
  · have h2 : lstripW (s ++ b) = lstripW s ++ b := dropWhile_append_of_ne_nil h
    rw [h2]
    exact rstripW_append_of_all hb

lemma pyStrip_not_suffix_crlf (s : List Char) : ¬ (['\r', '\n'] <:+ pyStrip s) := by
  rintro ⟨u, hu⟩
  have h : rstripW (lstripW s) = (u ++ ['\r']) ++ ['\n'] := by
    show pyStrip s = (u ++ ['\r']) ++ ['\n']
    rw [← hu]; simp
  have := rstripW_last_not_white h
  simp [isPyWhite] at this

/-! Helper lemmas about the swept focus grid. -/

lemma pyRangeLen_lt_iff {start stop step : Int} (hstep : 0 < step) (k : ℕ) :
    k < pyRangeLen start stop step ↔ start + k * step < stop := by
  unfold pyRangeLen
  rw [Int.lt_toNat, Int.fdiv_eq_ediv _ hstep.le, Int.lt_iff_add_one_le,
    Int.le_ediv_iff_mul_le hstep]
  have h : ((k : Int) + 1) * step = k * step + step := by ring
  rw [h]
  constructor <;> intro h2 <;> linarith

lemma mem_sweepGrid {minF maxF step x : Int} (hstep : 0 < step) :
    x ∈ sweepGrid minF maxF step ↔ ∃ k : ℕ, x = minF + k * step ∧ x ≤ maxF := by
  unfold sweepGrid pyRange
  constructor
  · intro hx
    obtain ⟨k, hk, hkx⟩ := List.mem_map.1 hx
    have hk2 : k < pyRangeLen minF (maxF + 1) step := List.mem_range.1 hk
    have h := (pyRangeLen_lt_iff hstep k).1 hk2
    refine ⟨k, hkx.symm, ?_⟩
    rw [← hkx]
    linarith
  · rintro ⟨k, rfl, hle⟩
    exact List.mem_map.2
      ⟨k, List.mem_range.2 ((pyRangeLen_lt_iff hstep k).2 (by linarith)), rfl⟩

lemma sweepGrid_pairwise {minF maxF step : Int} (hstep : 0 < step) :
    (sweepGrid minF maxF step).Pairwise (· < ·) := by
  unfold sweepGrid pyRange
  rw [List.pairwise_map]
  refine (List.pairwise_lt_range _).imp ?_
  intro a b hab
  have h : (a : Int) < b := by exact_mod_cast hab
  have h2 : (a : Int) * step < b * step := mul_lt_mul_of_pos_right h hstep
  linarith

/-! Helper lemmas about the best-sample fold of the autofocus sweep. -/

lemma foldl_bestStep_cases :
    ∀ (l : List (Int × ℚ)) (b : Int × ℚ),
      (l.foldl bestStep b = b ∧ ∀ p ∈ l, p.2 ≤ b.2) ∨
      (∃ l1 p l2, l = l1 ++ p :: l2 ∧ l.foldl bestStep b = p ∧ b.2 < p.2 ∧
        (∀ q ∈ l1, q.2 < p.2) ∧ (∀ q ∈ l2, q.2 ≤ p.2)) := by
  intro l
  induction l with
  | nil => intro b; exact Or.inl ⟨rfl, by simp⟩
  | cons a l ih =>
    intro b
    rw [List.foldl_cons]
    by_cases hab : b.2 < a.2
    · rw [show bestStep b a = a from if_pos hab]
      rcases ih a with ⟨heq, hle⟩ | ⟨l1, p, l2, hsplit, heq, hlt, hl1, hl2⟩
      · exact Or.inr ⟨[], a, l, rfl, heq, hab, by simp, hle⟩
      · refine Or.inr ⟨a :: l1, p, l2, by rw [hsplit, List.cons_append], heq, lt_trans hab hlt, ?_, hl2⟩
        intro q hq
        rcases List.mem_cons.1 hq with rfl | hq2
        · exact hlt
        · exact hl1 q hq2
    · rw [show bestStep b a = b from if_neg hab]
      push_neg at hab
      rcases ih b with ⟨heq, hle⟩ | ⟨l1, p, l2, hsplit, heq, hlt, hl1, hl2⟩
      · refine Or.inl ⟨heq, ?_⟩
        intro q hq
        rcases List.mem_cons.1 hq with rfl | hq2
        · exact hab
        · exact hle q hq2
      · refine Or.inr ⟨a :: l1, p, l2, by rw [hsplit, List.cons_append], heq, hlt, ?_, hl2⟩
        intro q hq
        rcases List.mem_cons.1 hq with rfl | hq2
        · exact lt_of_le_of_lt hab hlt
        · exact hl1 q hq2

lemma foldl_afStep_eq (sharp : Int → Option ℚ) :
    ∀ (grid : List Int) (b : Int × ℚ),
      grid.foldl (afStep sharp) b = (successes grid sharp).foldl bestStep b := by
  intro grid
  induction grid with
  | nil => intro b; rfl
  | cons f grid ih =>
    intro b
    rw [List.foldl_cons]
    cases hf : sharp f with
    | none =>
      have h1 : afStep sharp b f = b := by simp [afStep, hf]
      have h2 : successes (f :: grid) sharp = successes grid sharp := by
        simp [successes, List.filterMap_cons, hf]
      rw [h1, h2, ih]
    | some v =>
      have h1 : afStep sharp b f = bestStep b (f, v) := by simp [afStep, hf]
      have h2 : successes (f :: grid) sharp = (f, v) :: successes grid sharp := by
        simp [successes, List.filterMap_cons, hf]
      rw [h1, h2, List.foldl_cons, ih]

lemma mem_successes {grid : List Int} {sharp : Int → Option ℚ} {p : Int × ℚ} :
    p ∈ successes grid sharp ↔ p.1 ∈ grid ∧ sharp p.1 = some p.2 := by
  unfold successes
  rw [List.mem_filterMap]
  constructor
  · rintro ⟨f, hf, hmap⟩
    obtain ⟨v, hv, heq⟩ := Option.map_eq_some'.1 hmap
    cases heq
    exact ⟨hf, hv⟩
  · rintro ⟨h1, h2⟩
    refine ⟨p.1, h1, ?_⟩
    rw [h2, Option.map_some']

lemma successes_pairwise_fst {grid : List Int} {sharp : Int → Option ℚ}
    (h : grid.Pairwise (· < ·)) :
    (successes grid sharp).Pairwise (fun p q => p.1 < q.1) := by
  unfold successes
  rw [List.pairwise_filterMap]
  refine h.imp ?_
  intro a b hab p hp q hq
  rw [Option.mem_def] at hp hq
  obtain ⟨va, hva, hpa⟩ := Option.map_eq_some'.1 hp
  obtain ⟨vb, hvb, hqb⟩ := Option.map_eq_some'.1 hq
  rw [← hpa, ← hqb]
  exact hab

lemma foldl_afStep_of_none {sharp : Int → Option ℚ} :
    ∀ (l : List Int) (b : Int × ℚ), (∀ f ∈ l, sharp f = none) →
      l.foldl (afStep sharp) b = b := by
  intro l
  induction l with
  | nil => intro b _; rfl
  | cons f l ih =>
    intro b h
    rw [List.foldl_cons]
    have h1 : afStep sharp b f = b := by simp [afStep, h f (by simp)]
    rw [h1]
    exact ih b fun g hg => h g (by simp [hg])

lemma nonnegOpt_some {o : Option ℚ} {v : ℚ} (h : nonnegOpt o = true)
    (hv : o = some v) : 0 ≤ v := by
  rw [hv] at h
  exact of_decide_eq_true h

/-- C6: if every frame capture during the sweep fails, the best sample
stays at the initial `(min_focus, -1.0)` sentinel pair, and the final
committing command of the loop is `set_focus(min_focus)`. -/
theorem claim_C6_all_captures_fail (minF maxF step : Int) (sharp : Int → Option ℚ)
    (hfail : ∀ f ∈ sweepGrid minF maxF step, sharp f = none) :
    autofocusBestPair minF maxF step sharp = (minF, -1) ∧
      (autofocus_loop true minF maxF step sharp).getLast? =
        some (Cmd.setFocus minF) := by
  have hbest : autofocusBestPair minF maxF step sharp = (minF, -1) :=
    foldl_afStep_of_none _ _ hfail
  refine ⟨hbest, ?_⟩
  unfold autofocus_loop best_focus
  rw [if_pos rfl, hbest, List.getLast?_concat]

/-- Witness for C6 at the source defaults with a capture that always
fails. -/
theorem claim_C6_witness :
    (∀ f ∈ sweepGrid 0 60000 2000, (fun _ : Int => (none : Option ℚ)) f = none) ∧
      (autofocusBestPair 0 60000 2000 (fun _ => none) = (0, -1) ∧
        (autofocus_loop true 0 60000 2000 (fun _ => none)).getLast? =
          some (Cmd.setFocus 0)) :=
  ⟨fun f _ => rfl, claim_C6_all_captures_fail 0 60000 2000 (fun _ => none) (fun f _ => rfl)⟩

/-- C10: if at least one capture during the sweep succeeds, the committed
best focus is a swept grid value whose measured sharpness is maximal among
all successful samples; the nonnegative measured sharpness values (a
Laplacian variance is nonnegative, `nonnegOpt`) always beat the `-1.0`
sentinel, so the sentinel never survives a successful capture. -/
theorem claim_C10_committed_is_max (minF maxF step : Int) (sharp : Int → Option ℚ)
    (hsome : ∃ f ∈ sweepGrid minF maxF step, (sharp f).isSome = true)
    (hnn : ∀ f ∈ sweepGrid minF maxF step, nonnegOpt (sharp f) = true) :
    best_focus minF maxF step sharp ∈ sweepGrid minF maxF step ∧
      ∃ v, sharp (best_focus minF maxF step sharp) = some v ∧
        ∀ f ∈ sweepGrid minF maxF step, ∀ u, sharp f = some u → u ≤ v := by
  obtain ⟨f0, hf0, hs0⟩ := hsome
  obtain ⟨v0, hv0⟩ := Option.isSome_iff_exists.1 hs0
  have hp0 : (f0, v0) ∈ successes (sweepGrid minF maxF step) sharp :=
    mem_successes.2 ⟨hf0, hv0⟩
  have hv0nn : 0 ≤ v0 := nonnegOpt_some (hnn f0 hf0) hv0
  have hfold : autofocusBestPair minF maxF step sharp =
      (successes (sweepGrid minF maxF step) sharp).foldl bestStep (minF, -1) :=
    foldl_afStep_eq sharp _ _
  rcases foldl_bestStep_cases (successes (sweepGrid minF maxF step) sharp)
      (minF, -1) with ⟨heq, hle⟩ | ⟨l1, p, l2, hsplit, heq, hlt, hl1, hl2⟩
  · have h := hle (f0, v0) hp0
    norm_num at h
    linarith
  · have hres : autofocusBestPair minF maxF step sharp = p := by rw [hfold, heq]
    have hpmem : p ∈ successes (sweepGrid minF maxF step) sharp := by
      rw [hsplit]
      simp
    obtain ⟨hpg, hps⟩ := mem_successes.1 hpmem
    have hbf : best_focus minF maxF step sharp = p.1 := by rw [best_focus, hres]
    refine ⟨by rw [hbf]; exact hpg, p.2, by rw [hbf]; exact hps, ?_⟩
    intro f hf u hu
    have hmem : (f, u) ∈ successes (sweepGrid minF maxF step) sharp :=
      mem_successes.2 ⟨hf, hu⟩
    rw [hsplit] at hmem
    rcases List.mem_append.1 hmem with hq | hq
    · exact le_of_lt (hl1 _ hq)
    · rcases List.mem_cons.1 hq with hq2 | hq2
      · exact le_of_eq (congrArg Prod.snd hq2)
      · exact hl2 _ hq2

/-- Witness for C10 on the grid `[0, 2, 4]` with the sharpness of focus
`f` measured as `f` itself. -/
theorem claim_C10_witness :
    ((∃ f ∈ sweepGrid 0 4 2,
        ((fun f => some ((f : ℚ)) : Int → Option ℚ) f).isSome = true) ∧
      (∀ f ∈ sweepGrid 0 4 2,
        nonnegOpt ((fun f => some ((f : ℚ)) : Int → Option ℚ) f) = true)) ∧
      (best_focus 0 4 2 (fun f => some ((f : ℚ))) ∈ sweepGrid 0 4 2 ∧
        ∃ v, (fun f => some ((f : ℚ)) : Int → Option ℚ)
            (best_focus 0 4 2 (fun f => some ((f : ℚ)))) = some v ∧
          ∀ f ∈ sweepGrid 0 4 2,
            ∀ u, (fun f => some ((f : ℚ)) : Int → Option ℚ) f = some u → u ≤ v) := by
  have h1 : ∃ f ∈ sweepGrid 0 4 2,
      ((fun f => some ((f : ℚ)) : Int → Option ℚ) f).isSome = true :=
    ⟨0, by decide, rfl⟩
  have h2 : ∀ f ∈ sweepGrid 0 4 2,
      nonnegOpt ((fun f => some ((f : ℚ)) : Int → Option ℚ) f) = true := by
    have hg : sweepGrid 0 4 2 = [0, 2, 4] := by decide
    rw [hg]
    intro f hf
    fin_cases hf <;> norm_num [nonnegOpt]
  exact ⟨⟨h1, h2⟩, claim_C10_committed_is_max 0 4 2 _ h1 h2⟩

lemma autofocus_loop_commits (minF maxF step : Int) (sharp : Int → Option ℚ) :
    (autofocus_loop true minF maxF step sharp).getLast? =
      some (Cmd.setFocus (best_focus minF maxF step sharp)) := by
  unfold autofocus_loop
  rw [if_pos rfl, List.getLast?_concat]

/-- C4: when every capture succeeds (sharpness `sv f` measured at every
swept focus `f`), the sharpness values are nonnegative (they are
variances), and `sv` has a unique strict maximum at `m` on the swept grid,
the sweep's best sample is exactly `(m, sv m)` and the final committing
command is `set_focus(m)`. -/
theorem claim_C4_unique_max (minF maxF step : Int) (sv : Int → ℚ) (m : Int)
    (hm : m ∈ sweepGrid minF maxF step)
    (hnn : ∀ f ∈ sweepGrid minF maxF step, 0 ≤ sv f)
    (huniq : ∀ f ∈ sweepGrid minF maxF step, f ≠ m → sv f < sv m) :
    autofocusBestPair minF maxF step (fun f => some (sv f)) = (m, sv m) ∧
      (autofocus_loop true minF maxF step (fun f => some (sv f))).getLast? =
        some (Cmd.setFocus m) := by
  have hmm : ((m, sv m) : Int × ℚ) ∈
      successes (sweepGrid minF maxF step) (fun f => some (sv f)) :=
    mem_successes.2 ⟨hm, rfl⟩
  have hfold : autofocusBestPair minF maxF step (fun f => some (sv f)) =
      (successes (sweepGrid minF maxF step) (fun f => some (sv f))).foldl
        bestStep (minF, -1) :=
    foldl_afStep_eq _ _ _
  rcases foldl_bestStep_cases
      (successes (sweepGrid minF maxF step) (fun f => some (sv f))) (minF, -1) with
    ⟨heq, hle⟩ | ⟨l1, p, l2, hsplit, heq, hlt, hl1, hl2⟩
  · have h := hle _ hmm
    have h2 := hnn m hm
    norm_num at h
    linarith
  · have hpmem : p ∈ successes (sweepGrid minF maxF step) (fun f => some (sv f)) := by
      rw [hsplit]; simp
    obtain ⟨hpg, hps⟩ := mem_successes.1 hpmem
    have hp2 : sv p.1 = p.2 := Option.some_inj.1 hps
    have hpm : p.1 = m := by
      by_contra hne
      have h2 : sv p.1 < sv m := huniq p.1 hpg hne
      rw [hsplit] at hmm
      rcases List.mem_append.1 hmm with hq | hq
      · have h3 := hl1 _ hq
        rw [← hp2] at h3
        simp only at h3
        linarith
      · rcases List.mem_cons.1 hq with hq2 | hq2
        · exact hne (congrArg Prod.fst hq2).symm
        · have h3 := hl2 _ hq2
          rw [← hp2] at h3
          simp only at h3
          linarith
    have hpeq : p = (m, sv m) := Prod.ext_iff.2 ⟨hpm, by rw [← hp2, hpm]⟩
    have hbest : autofocusBestPair minF maxF step (fun f => some (sv f)) = (m, sv m) := by
      rw [hfold, heq, hpeq]
    refine ⟨hbest, ?_⟩
    rw [autofocus_loop_commits, best_focus, hbest]

/-- Witness for C4 on the grid `[0, 2, 4]` with the sharpness of focus
`f` measured as `f` itself: the unique maximizer is m = 4. -/
theorem claim_C4_witness :
    ((4 : Int) ∈ sweepGrid 0 4 2 ∧
      (∀ f ∈ sweepGrid 0 4 2, 0 ≤ ((f : ℚ))) ∧
      (∀ f ∈ sweepGrid 0 4 2, f ≠ 4 → ((f : ℚ)) < ((4 : Int) : ℚ))) ∧
      (autofocusBestPair 0 4 2 (fun f => some ((f : ℚ))) = (4, ((4 : Int) : ℚ)) ∧
        (autofocus_loop true 0 4 2 (fun f => some ((f : ℚ)))).getLast? =
          some (Cmd.setFocus 4)) := by
  have hg : sweepGrid 0 4 2 = [0, 2, 4] := by decide
  have hm : (4 : Int) ∈ sweepGrid 0 4 2 := by decide
  have hnn : ∀ f ∈ sweepGrid 0 4 2, 0 ≤ ((f : ℚ)) := by
    rw [hg]; intro f hf; fin_cases hf <;> norm_num
  have huniq : ∀ f ∈ sweepGrid 0 4 2, f ≠ 4 → ((f : ℚ)) < ((4 : Int) : ℚ) := by
    rw [hg]; intro f hf hne; fin_cases hf <;> norm_num at hne ⊢
  exact ⟨⟨hm, hnn, huniq⟩, claim_C4_unique_max 0 4 2 (fun f => (f : ℚ)) 4 hm hnn huniq⟩

/-- C5: when every capture succeeds, sharpness values are nonnegative, and
the maximal sharpness (attained by `f1`) is also attained by a different
swept focus `f2`, the committed best focus attains the maximum and is the
earliest (lowest) swept focus attaining it: the strict greater-than update
means later equal values never replace the first maximizer. -/
theorem claim_C5_tie_break (minF maxF step : Int) (hstep : 0 < step)
    (sv : Int → ℚ) (f1 f2 : Int)
    (hf1 : f1 ∈ sweepGrid minF maxF step) (hf2 : f2 ∈ sweepGrid minF maxF step)
    (hne : f1 ≠ f2) (heq12 : sv f1 = sv f2)
    (hmax : ∀ f ∈ sweepGrid minF maxF step, sv f ≤ sv f1)
    (hnn : ∀ f ∈ sweepGrid minF maxF step, 0 ≤ sv f) :
    best_focus minF maxF step (fun f => some (sv f)) ∈ sweepGrid minF maxF step ∧
      sv (best_focus minF maxF step (fun f => some (sv f))) = sv f1 ∧
      (∀ f ∈ sweepGrid minF maxF step, sv f = sv f1 →
        best_focus minF maxF step (fun f => some (sv f)) ≤ f) ∧
      (autofocus_loop true minF maxF step (fun f => some (sv f))).getLast? =
        some (Cmd.setFocus (best_focus minF maxF step (fun f => some (sv f)))) := by
  have hmm : ((f1, sv f1) : Int × ℚ) ∈
      successes (sweepGrid minF maxF step) (fun f => some (sv f)) :=
    mem_successes.2 ⟨hf1, rfl⟩
  have hfold : autofocusBestPair minF maxF step (fun f => some (sv f)) =
      (successes (sweepGrid minF maxF step) (fun f => some (sv f))).foldl
        bestStep (minF, -1) :=
    foldl_afStep_eq _ _ _
  have hpw : (successes (sweepGrid minF maxF step) (fun f => some (sv f))).Pairwise
      (fun p q => p.1 < q.1) :=
    successes_pairwise_fst (sweepGrid_pairwise hstep)
  rcases foldl_bestStep_cases
      (successes (sweepGrid minF maxF step) (fun f => some (sv f))) (minF, -1) with
    ⟨heq, hle⟩ | ⟨l1, p, l2, hsplit, heq, hlt, hl1, hl2⟩
  · have h := hle _ hmm
    have h2 := hnn f1 hf1
    norm_num at h
    linarith
  · have hpmem : p ∈ successes (sweepGrid minF maxF step) (fun f => some (sv f)) := by
      rw [hsplit]; simp
    obtain ⟨hpg, hps⟩ := mem_successes.1 hpmem
    have hp2 : sv p.1 = p.2 := Option.some_inj.1 hps
    have hple : p.2 ≤ sv f1 := by rw [← hp2]; exact hmax p.1 hpg
    have hptop : p.2 = sv f1 := by
      rw [hsplit] at hmm
      rcases List.mem_append.1 hmm with hq | hq
      · have h3 := hl1 _ hq
        simp only at h3
        linarith
      · rcases List.mem_cons.1 hq with hq2 | hq2
        · exact (congrArg Prod.snd hq2).symm
        · have h3 := hl2 _ hq2
          simp only at h3
          linarith
    have hbf : best_focus minF maxF step (fun f => some (sv f)) = p.1 := by
      rw [best_focus, hfold, heq]
    have hl2fst : ∀ q ∈ l2, p.1 < q.1 := by
      rw [hsplit] at hpw
      have h4 := (List.pairwise_append.1 hpw).2.1
      exact (List.pairwise_cons.1 h4).1
    refine ⟨by rw [hbf]; exact hpg, by rw [hbf, hp2, hptop], ?_, autofocus_loop_commits ..⟩
    intro f hf hsf
    have hfm : ((f, sv f) : Int × ℚ) ∈
        successes (sweepGrid minF maxF step) (fun f => some (sv f)) :=
      mem_successes.2 ⟨hf, rfl⟩
    rw [hsplit] at hfm
    rcases List.mem_append.1 hfm with hq | hq
    · have h3 := hl1 _ hq
      simp only at h3
      rw [hptop] at h3
      exact absurd hsf (ne_of_lt h3)
    · rcases List.mem_cons.1 hq with hq2 | hq2
      · rw [hbf, ← congrArg Prod.fst hq2]
      · have h3 := hl2fst _ hq2
        simp only at h3
        rw [hbf]
        exact le_of_lt h3

/-- Witness for C5 on the grid `[0, 2, 4]` with sharpness `1, 1, 0`: the
maximum 1 is attained at 0 and at 2, and the earliest maximizer is 0. -/
theorem claim_C5_witness :
    ((0 : Int) < 2 ∧ (0 : Int) ∈ sweepGrid 0 4 2 ∧ (2 : Int) ∈ sweepGrid 0 4 2 ∧
      (0 : Int) ≠ 2 ∧
      (fun f : Int => if f ≤ 2 then (1 : ℚ) else 0) 0 =
        (fun f : Int => if f ≤ 2 then (1 : ℚ) else 0) 2 ∧
      (∀ f ∈ sweepGrid 0 4 2, (fun f : Int => if f ≤ 2 then (1 : ℚ) else 0) f ≤
        (fun f : Int => if f ≤ 2 then (1 : ℚ) else 0) 0) ∧
      (∀ f ∈ sweepGrid 0 4 2, 0 ≤ (fun f : Int => if f ≤ 2 then (1 : ℚ) else 0) f)) ∧
      (best_focus 0 4 2 (fun f => some ((fun f : Int => if f ≤ 2 then (1 : ℚ) else 0) f)) ∈
          sweepGrid 0 4 2 ∧
        (fun f : Int => if f ≤ 2 then (1 : ℚ) else 0)
            (best_focus 0 4 2
              (fun f => some ((fun f : Int => if f ≤ 2 then (1 : ℚ) else 0) f))) =
          (fun f : Int => if f ≤ 2 then (1 : ℚ) else 0) 0 ∧
        (∀ f ∈ sweepGrid 0 4 2,
          (fun f : Int => if f ≤ 2 then (1 : ℚ) else 0) f =
            (fun f : Int => if f ≤ 2 then (1 : ℚ) else 0) 0 →
          best_focus 0 4 2
              (fun f => some ((fun f : Int => if f ≤ 2 then (1 : ℚ) else 0) f)) ≤ f) ∧
        (autofocus_loop true 0 4 2
            (fun f => some ((fun f : Int => if f ≤ 2 then (1 : ℚ) else 0) f))).getLast? =
          some (Cmd.setFocus (best_focus 0 4 2
            (fun f => some ((fun f : Int => if f ≤ 2 then (1 : ℚ) else 0) f))))) := by
  have hg : sweepGrid 0 4 2 = [0, 2, 4] := by decide
  have hmax : ∀ f ∈ sweepGrid 0 4 2,
      (fun f : Int => if f ≤ 2 then (1 : ℚ) else 0) f ≤
        (fun f : Int => if f ≤ 2 then (1 : ℚ) else 0) 0 := by
    rw [hg]; intro f hf; fin_cases hf <;> norm_num
  have hnn : ∀ f ∈ sweepGrid 0 4 2,
      0 ≤ (fun f : Int => if f ≤ 2 then (1 : ℚ) else 0) f := by
    rw [hg]; intro f hf; fin_cases hf <;> norm_num
  have h12 : (fun f : Int => if f ≤ 2 then (1 : ℚ) else 0) 0 =
      (fun f : Int => if f ≤ 2 then (1 : ℚ) else 0) 2 := by norm_num
  exact ⟨⟨by decide, by decide, by decide, by decide, h12, hmax, hnn⟩,
    claim_C5_tie_break 0 4 2 (by decide) (fun f : Int => if f ≤ 2 then (1 : ℚ) else 0)
      0 2 (by decide) (by decide) (by decide) h12 hmax hnn⟩

/-- C2 counterexample: for minFocus = 0, maxFocus = 3 and the positive
step 2, the sweep of `range(min_focus, max_focus + 1, step)` visits
`[0, 2]` and does not visit maxFocus = 3, refuting the claim that the
candidate values always run up to and including maxFocus. -/
theorem claim_C2_counterexample :
    (0 : Int) < 2 ∧ sweepGrid 0 3 2 = [0, 2] ∧ (3 : Int) ∉ sweepGrid 0 3 2 := by
  refine ⟨by decide, by decide, by decide⟩

/-- C2 amended: for every minFocus, maxFocus and positive step, the sweep
visits exactly the values `minFocus + k * step` (k a natural number) that
are at most maxFocus, in strictly increasing order; maxFocus itself is
visited exactly when minFocus ≤ maxFocus and step divides
maxFocus - minFocus. -/
theorem claim_C2_grid (minF maxF step : Int) (hstep : 0 < step) :
    (∀ x, x ∈ sweepGrid minF maxF step ↔ ∃ k : ℕ, x = minF + k * step ∧ x ≤ maxF) ∧
      (sweepGrid minF maxF step).Pairwise (· < ·) ∧
      (maxF ∈ sweepGrid minF maxF step ↔ minF ≤ maxF ∧ step ∣ maxF - minF) := by
  refine ⟨fun x => mem_sweepGrid hstep, sweepGrid_pairwise hstep, ?_⟩
  rw [mem_sweepGrid hstep]
  constructor
  · rintro ⟨k, hk, -⟩
    have hk2 : (k : Int) * step = maxF - minF := by linarith
    have hnn : (0 : Int) ≤ (k : Int) * step := mul_nonneg (Int.natCast_nonneg k) hstep.le
    exact ⟨by linarith, ⟨k, by linarith⟩⟩
  · rintro ⟨hle, c, hc⟩
    have hc0 : 0 ≤ c := by
      by_contra hneg
      push_neg at hneg
      have h2 : step * c < 0 := mul_neg_of_pos_of_neg hstep hneg
      linarith
    refine ⟨c.toNat, ?_, le_refl maxF⟩
    have h3 : ((c.toNat : Int)) = c := Int.toNat_of_nonneg hc0
    rw [h3]
    linarith

/-- Witness for the amended C2 at the source defaults minFocus = 0,
maxFocus = 60000, step = 2000. -/
theorem claim_C2_witness :
    (0 : Int) < 2000 ∧
      ((∀ x, x ∈ sweepGrid 0 60000 2000 ↔ ∃ k : ℕ, x = 0 + k * 2000 ∧ x ≤ 60000) ∧
        (sweepGrid 0 60000 2000).Pairwise (· < ·) ∧
        ((60000 : Int) ∈ sweepGrid 0 60000 2000 ↔
          (0 : Int) ≤ 60000 ∧ (2000 : Int) ∣ 60000 - 0)) :=
  ⟨by decide, claim_C2_grid 0 60000 2000 (by decide)⟩

/-- C1 counterexample: for the 1280×720 frame and the person box
`(650, 355)-(660, 365)` the pixel error is dx = 15 (dy = 0).  The claimed
control law `panValue = round(dx * 0.1)` gives `round(1.5) = 2`, whose
absolute value exceeds 1, so the claim requires a `Pan(2)` command; but
the code computes `int(15 * 0.1) = 1` and issues no pan command at all:
the frame's only command is the zoom. -/
theorem claim_C1_counterexample :
    dxOf ⟨1280, 720⟩ ⟨650, 355, 660, 365⟩ = 15 ∧
      pyRound (((15 : Int) : ℚ) / 10) = 2 ∧
      (1 : Int) < |pyRound (((15 : Int) : ℚ) / 10)| ∧
      pan_val ⟨1280, 720⟩ ⟨650, 355, 660, 365⟩ = 1 ∧
      frameStep ⟨1280, 720⟩ ⟨650, 355, 660, 365⟩ = [Cmd.setZoom 16350] := by
  refine ⟨?_, ?_, ?_, ?_, ?_⟩ <;>
    norm_num [dxOf, dyOf, obj_center_x, obj_center_y, center_x, center_y,
      pyInt, pyRound, Int.fdiv, frameStep, pan_val, tilt_val, zoom_value,
      zoom_of_width, bbox_width]

/-- C1 amended: the controller computes `panValue = int(dx * 0.1)`
(truncation toward zero, not rounding) and `tiltValue = int(dy * 0.1)`
from the pixel error between the detection center and the frame center;
a Pan command is issued if and only if `|panValue| > 1`, and when issued
it carries exactly the computed `panValue` (Tilt likewise). -/
theorem claim_C1_deadband (g : Geometry) (b : Box) (v : Int) :
    (Cmd.pan v ∈ frameStep g b ↔ v = pan_val g b ∧ 1 < |pan_val g b|) ∧
      (Cmd.tilt v ∈ frameStep g b ↔ v = tilt_val g b ∧ 1 < |tilt_val g b|) := by
  unfold frameStep
  by_cases hp : 1 < |pan_val g b| <;> by_cases ht : 1 < |tilt_val g b| <;>
    constructor <;> simp [hp, ht, eq_comm]

/-- C8: for a fixed frame width the computed zoom value is monotonically
non-increasing in the bounding-box width (wider box, smaller or equal
zoom value, per `int(10000 + (frameWidth - bboxWidth) * 5)`), and every
frame with a selected detection issues exactly that zoom value. -/
theorem claim_C8_zoom_antitone (W : Int) (w1 w2 : ℚ) (h : w1 ≤ w2) :
    zoom_of_width W w2 ≤ zoom_of_width W w1 ∧
      ∀ g b, Cmd.setZoom (zoom_of_width g.width (bbox_width b)) ∈ frameStep g b := by
  constructor
  · unfold zoom_of_width
    apply pyInt_mono
    linarith
  · intro g b
    unfold frameStep
    have hz : zoom_value g b = zoom_of_width g.width (bbox_width b) := rfl
    rw [← hz]
    simp

/-- Witness for C8 at frame width 1280 and box widths 10 ≤ 20. -/
theorem claim_C8_witness :
    (10 : ℚ) ≤ 20 ∧
      (zoom_of_width 1280 20 ≤ zoom_of_width 1280 10 ∧
        ∀ g b, Cmd.setZoom (zoom_of_width g.width (bbox_width b)) ∈ frameStep g b) :=
  ⟨by norm_num, claim_C8_zoom_antitone 1280 10 20 (by norm_num)⟩

/-- C3: once the command channel is Closed because the serial open at
construction failed, any sequence of subsequent sends leaves it Closed (it
never becomes Open again), and every one of those sends returns None
(`Except.ok none`: no exception escapes to the caller) and writes no bytes
to the device. -/
theorem claim_C3_closed_channel_noop (inputs : List (List Char × Device)) :
    runSends (mkChannel false) inputs =
      (ChannelState.Closed, inputs.map fun _ => (Except.ok none, [])) := by
  show runSends ChannelState.Closed inputs = _
  induction inputs with
  | nil => rfl
  | cons i rest ih =>
    obtain ⟨cmd, dev⟩ := i
    simp [runSends, send_command, ih]

/-- C7: for every command string sent on an Open channel (with the write
not raising), the bytes written end with the line terminator CRLF exactly
once: they decompose as `w ++ CRLF` where `w` itself does not end with
CRLF, even when the caller's text already ends with whitespace or with
the terminator. -/
theorem claim_C7_terminated_once (cmd : List Char) (dev : Device)
    (h : dev.writeRaises = false) :
    ∃ w, (send_command ChannelState.Open cmd dev).2.2 = w ++ ['\r', '\n'] ∧
      ¬ (['\r', '\n'] <:+ w) := by
  refine ⟨pyStrip cmd, ?_, pyStrip_not_suffix_crlf cmd⟩
  simp [send_command, h, full_cmd]

/-- Witness for C7 at the command text `"G0 X5\r\n"`, which already ends
with the terminator. -/
theorem claim_C7_witness :
    (Device.mk false []).writeRaises = false ∧
      ∃ w, (send_command ChannelState.Open ['G', '0', ' ', 'X', '5', '\r', '\n']
          (Device.mk false [])).2.2 = w ++ ['\r', '\n'] ∧ ¬ (['\r', '\n'] <:+ w) :=
  ⟨rfl, claim_C7_terminated_once ['G', '0', ' ', 'X', '5', '\r', '\n'] (Device.mk false []) rfl⟩

/-- C9: the bytes written by `send_command` equal `strip(cmd)` followed by
CRLF, and surrounding whitespace of the caller's text does not change the
bytes on the wire: `send(a ++ cmd ++ b)` writes the same bytes as
`send(cmd)` whenever `a` and `b` consist of whitespace. -/
theorem claim_C9_strip_then_crlf (cmd a b : List Char) (dev : Device)
    (h : dev.writeRaises = false)
    (ha : ∀ c ∈ a, isPyWhite c = true) (hb : ∀ c ∈ b, isPyWhite c = true) :
    (send_command ChannelState.Open cmd dev).2.2 = pyStrip cmd ++ ['\r', '\n'] ∧
      (send_command ChannelState.Open (a ++ cmd ++ b) dev).2.2 =
        (send_command ChannelState.Open cmd dev).2.2 := by
  constructor
  · simp [send_command, h, full_cmd]
  · simp only [send_command, h, full_cmd, if_neg Bool.false_ne_true]
    rw [pyStrip_surround ha hb]

/-- Witness for C9 at `cmd = "G0 X5"`, `a = " "`, `b = "\n"`. -/
theorem claim_C9_witness :
    ((Device.mk false []).writeRaises = false ∧
      (∀ c ∈ [' '], isPyWhite c = true) ∧ (∀ c ∈ ['\n'], isPyWhite c = true)) ∧
      ((send_command ChannelState.Open ['G', '0', ' ', 'X', '5']
          (Device.mk false [])).2.2 = pyStrip ['G', '0', ' ', 'X', '5'] ++ ['\r', '\n'] ∧
        (send_command ChannelState.Open ([' '] ++ ['G', '0', ' ', 'X', '5'] ++ ['\n'])
            (Device.mk false [])).2.2 =
          (send_command ChannelState.Open ['G', '0', ' ', 'X', '5']
            (Device.mk false [])).2.2) :=
  ⟨⟨rfl, by decide, by decide⟩,
    claim_C9_strip_then_crlf ['G', '0', ' ', 'X', '5'] [' '] ['\n']
      (Device.mk false []) rfl (by decide) (by decide)⟩

end Kamera
